import Mathlib

set_option maxHeartbeats 1000000

namespace WebpackTarget

/-- A capability descriptor: a JavaScript object modelled as an ordered
key/value list.  A key that is present with value `none` models a property
explicitly set to `undefined`; a key that does not occur in the list models
an absent property. -/
abbrev TP := List (String × Option Bool)

/-- Numeric value of a list of decimal digit characters. -/
def digitsToNat (l : List Char) : Nat :=
  l.foldl (fun a c => a * 10 + (c.toNat - 48)) 0

/-- An exact decimal number num / 10 ^ exp, the value of a numeral of the
shape digits[.digits].  IEEE float rounding is not modelled. -/
structure Dec where
  num : Nat
  exp : Nat
  deriving DecidableEq

def Dec.ofNat (n : Nat) : Dec := ⟨n, 0⟩

/-- Comparison of exact decimals by cross multiplication. -/
def Dec.blt (a b : Dec) : Bool := decide (a.num * 10 ^ b.exp < b.num * 10 ^ a.exp)

/-- Equality of exact decimals by cross multiplication. -/
def Dec.beqv (a b : Dec) : Bool := decide (a.num * 10 ^ b.exp = b.num * 10 ^ a.exp)

/-- Order of exact decimals by cross multiplication. -/
def Dec.ble (a b : Dec) : Bool := decide (a.num * 10 ^ b.exp ≤ b.num * 10 ^ a.exp)

/-- JavaScript numeric coercion (the unary plus) restricted to the strings the
matchers can capture, i.e. digits optionally followed by a dot and more
digits. -/
def jsNum (l : List Char) : Dec :=
  let intPart := l.takeWhile (fun c => c != '.')
  match l.dropWhile (fun c => c != '.') with
  | [] => ⟨digitsToNat intPart, 0⟩
  | _ :: frac => ⟨digitsToNat intPart * 10 ^ frac.length + digitsToNat frac, frac.length⟩

/-- JavaScript truthiness test (negated) for an optional captured string:
undefined and the empty string are falsy, every other string is truthy. -/
def jsFalsyStr : Option (List Char) → Bool
  | none => true
  | some [] => true
  | some (_ :: _) => false

/-- Source: versionDependent (src/lib/config/target.js lines 44-51).
The source returns a closure over the coerced major/minor; here the closure
application is flattened into two extra arguments.  The baseline minor
defaults to 0 exactly as `(vMajor, vMinor = 0)` does in the source. -/
def versionDependent (major minor : Option (List Char)) (vMajor : Nat) (vMinor : Nat := 0) :
    Option Bool :=
  match major with
  | none => none
  | some [] => none
  | some (c :: cs) =>
    let m : Dec := jsNum (c :: cs)
    let n : Dec :=
      match minor with
      | none => Dec.ofNat 0
      | some [] => Dec.ofNat 0
      | some (d :: ds) => jsNum (d :: ds)
    some (Dec.blt (Dec.ofNat vMajor) m || (Dec.beqv m (Dec.ofNat vMajor) && Dec.ble (Dec.ofNat vMinor) n))

/-- Source: the handler of the node family (lines 59-85), key order as in the
source object literal. -/
def nodeHandler (asyncFlag major minor : Option (List Char)) : TP :=
  [ ("node", some true),
    ("electronMain", some false),
    ("electronPreload", some false),
    ("nwjs", some false),
    ("web", some false),
    ("require", some (jsFalsyStr asyncFlag)),
    ("global", some true),
    ("document", some false),
    ("fetchWasm", some false),
    ("importScripts", some false),
    ("importScriptsInWorker", some false),
    ("globalThis", versionDependent major minor 12),
    ("const", versionDependent major minor 6),
    ("arrowFunctions", versionDependent major minor 6),
    ("forOf", versionDependent major minor 5),
    ("destructuring", versionDependent major minor 6),
    ("bigInitLiteral", versionDependent major minor 10 4),
    ("import", versionDependent major minor 12 17),
    ("module", versionDependent major minor 12 17) ]

/-- Source: the handler of the web target (lines 91-106). -/
def webProps : TP :=
  [ ("web", some true),
    ("node", some false),
    ("electronMain", some false),
    ("electronPreload", some false),
    ("nwjs", some false),
    ("document", some true),
    ("importScriptsInWorker", some true),
    ("fetchWasm", some true),
    ("importScripts", some false),
    ("require", some false),
    ("global", some false) ]

/-- Source: the handler of the webworker target (lines 112-127). -/
def webworkerProps : TP :=
  [ ("web", some true),
    ("node", some false),
    ("electronMain", some false),
    ("electronPreload", some false),
    ("nwjs", some false),
    ("importScripts", some true),
    ("importScriptsInWorker", some true),
    ("fetchWasm", some true),
    ("require", some false),
    ("document", some false),
    ("global", some false) ]

/-- Source: the handler of electron-main (lines 133-159). -/
def electronMainHandler (major minor : Option (List Char)) : TP :=
  [ ("node", some true),
    ("electronMain", some true),
    ("electronPreload", some false),
    ("web", some false),
    ("nwjs", some false),
    ("global", some true),
    ("document", some false),
    ("fetchWasm", some false),
    ("importScripts", some false),
    ("importScriptsInWorker", some false),
    ("require", some false),
    ("globalThis", versionDependent major minor 5),
    ("const", versionDependent major minor 1 1),
    ("arrowFunctions", versionDependent major minor 1 1),
    ("forOf", versionDependent major minor 0 36),
    ("destructuring", versionDependent major minor 1 1),
    ("bigInitLiteral", versionDependent major minor 4),
    ("import", versionDependent major minor 11),
    ("module", versionDependent major minor 11) ]

/-- Source: the handler of electron-preload / electron-renderer
(lines 165-191). -/
def electronPreloadHandler (major minor : Option (List Char)) : TP :=
  [ ("node", some true),
    ("web", some true),
    ("electronPreload", some true),
    ("electronMain", some false),
    ("nwjs", some false),
    ("global", some true),
    ("require", some false),
    ("importScriptsInWorker", some false),
    ("importScripts", some false),
    ("fetchWasm", some false),
    ("document", some false),
    ("globalThis", versionDependent major minor 5),
    ("const", versionDependent major minor 1 1),
    ("arrowFunctions", versionDependent major minor 1 1),
    ("forOf", versionDependent major minor 0 36),
    ("destructuring", versionDependent major minor 1 1),
    ("bigInitLiteral", versionDependent major minor 4),
    ("import", versionDependent major minor 11),
    ("module", versionDependent major minor 11) ]

/-- Source: the handler of nwjs / node-webkit (lines 197-223). -/
def nwjsHandler (major minor : Option (List Char)) : TP :=
  [ ("node", some true),
    ("web", some true),
    ("nwjs", some true),
    ("electronMain", some false),
    ("electronPreload", some false),
    ("global", some true),
    ("document", some false),
    ("importScriptsInWorker", some false),
    ("fetchWasm", some false),
    ("importScripts", some false),
    ("require", some false),
    ("globalThis", versionDependent major minor 0 43),
    ("const", versionDependent major minor 0 15),
    ("arrowFunctions", versionDependent major minor 0 15),
    ("forOf", versionDependent major minor 0 13),
    ("destructuring", versionDependent major minor 0 15),
    ("bigInitLiteral", versionDependent major minor 0 32),
    ("import", versionDependent major minor 0 43),
    ("module", versionDependent major minor 0 43) ]

/-- Source: the handler of the esX family (lines 229-242). -/
def esHandler (version : List Char) : TP :=
  let v : Int := (digitsToNat version : Int)
  let v2 : Int := if v > 1000 then v - 2009 else v
  [ ("globalThis", some (decide (v2 ≥ 6))),
    ("const", some (decide (v2 ≥ 6))),
    ("arrowFunctions", some (decide (v2 ≥ 6))),
    ("forOf", some (decide (v2 ≥ 6))),
    ("destructuring", some (decide (v2 ≥ 6))),
    ("bigInitLiteral", some (decide (v2 ≥ 6))),
    ("import", some (decide (v2 ≥ 6))),
    ("module", some (decide (v2 ≥ 6))) ]

/-- Consume a literal from the front of the input, returning the rest. -/
def chomp : List Char → List Char → Option (List Char)
  | [], s => some s
  | _ :: _, [] => none
  | c :: cs, x :: xs => if x == c then chomp cs xs else none

/-- Match the regex fragment (d+(?:.(d+))?) followed by the literal tail and
the end of the input; returns the text of the whole version group and the
minor capture.  The second branch models regex backtracking: when the
fractional alternative cannot complete the match, the optional group is
skipped. -/
def parseVersionBefore (tail l : List Char) : Option (List Char × Option (List Char)) :=
  let ds := l.takeWhile Char.isDigit
  let rest := l.dropWhile Char.isDigit
  if ds = [] then none
  else
    match rest with
    | '.' :: fs =>
      let ds2 := fs.takeWhile Char.isDigit
      let rest2 := fs.dropWhile Char.isDigit
      if ds2 ≠ [] ∧ rest2 = tail then some (ds ++ '.' :: ds2, some ds2)
      else if rest = tail then some (ds, none)
      else none
    | _ => if rest = tail then some (ds, none) else none

def asyncL : List Char := ['a', 's', 'y', 'n', 'c', '-']
def asyncNodeL : List Char := ['a', 's', 'y', 'n', 'c', '-', 'n', 'o', 'd', 'e']
def webL : List Char := ['w', 'e', 'b']
def webworkerL : List Char := ['w', 'e', 'b', 'w', 'o', 'r', 'k', 'e', 'r']
def electronL : List Char := ['e', 'l', 'e', 'c', 't', 'r', 'o', 'n']
def mainTailL : List Char := ['-', 'm', 'a', 'i', 'n']
def preloadTailL : List Char := ['-', 'p', 'r', 'e', 'l', 'o', 'a', 'd']
def rendererTailL : List Char := ['-', 'r', 'e', 'n', 'd', 'e', 'r', 'e', 'r']
def nwjsL : List Char := ['n', 'w', 'j', 's']
def nodeWebkitL : List Char := ['n', 'o', 'd', 'e', '-', 'w', 'e', 'b', 'k', 'i', 't']
def esL : List Char := ['e', 's']

/-- Regex of the node family (line 58): the async- group and the version are
both mandatory in the source pattern.  Captures (group 1, group 2, group 3). -/
def matchNode (l : List Char) : Option (Option (List Char) × List Char × Option (List Char)) :=
  match chomp asyncNodeL l with
  | none => none
  | some rest =>
    match parseVersionBefore [] rest with
    | none => none
    | some (maj, mi) => some (some asyncL, maj, mi)

/-- Regex of electron-main (line 132). -/
def matchElectronMain (l : List Char) : Option (List Char × Option (List Char)) :=
  match chomp electronL l with
  | none => none
  | some rest => parseVersionBefore mainTailL rest

/-- Regex of electron-preload / electron-renderer (line 164). -/
def matchElectronPreload (l : List Char) : Option (List Char × Option (List Char)) :=
  match chomp electronL l with
  | none => none
  | some rest =>
    match parseVersionBefore preloadTailL rest with
    | some r => some r
    | none => parseVersionBefore rendererTailL rest

/-- Regex of nwjs / node-webkit (line 196). -/
def matchNwjs (l : List Char) : Option (List Char × Option (List Char)) :=
  match chomp nwjsL l with
  | some rest => parseVersionBefore [] rest
  | none =>
    match chomp nodeWebkitL l with
    | some rest => parseVersionBefore [] rest
    | none => none

/-- Regex of the esX family (line 228). -/
def matchEs (l : List Char) : Option (List Char) :=
  match chomp esL l with
  | none => none
  | some rest => if rest ≠ [] ∧ rest.all Char.isDigit = true then some rest else none

def runNode (l : List Char) : Option TP :=
  match matchNode l with
  | none => none
  | some (a, maj, mi) => some (nodeHandler a (some maj) mi)

def runWeb (l : List Char) : Option TP :=
  match chomp webL l with
  | none => none
  | some rest => if rest = [] then some webProps else none

def runWebworker (l : List Char) : Option TP :=
  match chomp webworkerL l with
  | none => none
  | some rest => if rest = [] then some webworkerProps else none

def runElectronMain (l : List Char) : Option TP :=
  match matchElectronMain l with
  | none => none
  | some (maj, mi) => some (electronMainHandler (some maj) mi)

def runElectronPreload (l : List Char) : Option TP :=
  match matchElectronPreload l with
  | none => none
  | some (maj, mi) => some (electronPreloadHandler (some maj) mi)

def runNwjs (l : List Char) : Option TP :=
  match matchNwjs l with
  | none => none
  | some (maj, mi) => some (nwjsHandler (some maj) mi)

def runEs (l : List Char) : Option TP :=
  match matchEs l with
  | none => none
  | some version => some (esHandler version)

/-- One entry of the TARGETS table: display name, description and the
combination of the regex with the handler. -/
structure TargetEntry where
  name : String
  description : String
  run : List Char → Option TP

/-- Source: the TARGETS registry (lines 54-244), in source order. -/
def TARGETS : List TargetEntry :=
  [ ⟨"[async-]node[X[.Y]]",
     "Node.js in version X.Y. The 'async-' prefix will load chunks asynchronously via 'fs' and 'vm' instead of 'require()'. Examples: node14.5, async-node10.",
     runNode⟩,
    ⟨"web", "Web browser.", runWeb⟩,
    ⟨"webworker", "Web Worker, SharedWorker or Service Worker.", runWebworker⟩,
    ⟨"electron[X[.Y]]-main", "Electron in version X.Y. Script is running in main context.",
     runElectronMain⟩,
    ⟨"electron[X[.Y]]-preload / electron[X[.Y]]-renderer",
     "Electron in version X.Y. Script is running in preload or renderer context.",
     runElectronPreload⟩,
    ⟨"nwjs[X[.Y]] / node-webkit[X[.Y]]", "NW.js in version X.Y.", runNwjs⟩,
    ⟨"esX", "EcmaScript in this version. Examples: es5, es2020.", runEs⟩ ]

/-- The loop of getTargetProperties (lines 251-258): first matching entry
wins.  In the source the handler result is additionally tested for
truthiness; every handler returns an object literal, which is always truthy,
so the test is folded into the regex match here. -/
def findTP : List TargetEntry → List Char → Option TP
  | [], _ => none
  | e :: rest, l =>
    match e.run l with
    | some r => some r
    | none => findTP rest l

/-- The message of the error thrown at lines 259-263. -/
def unknownTargetMessage (target : String) : String :=
  "Unknown target '" ++ target ++ "'. The following targets are supported:\n" ++
    String.intercalate "\n" (TARGETS.map (fun e => "* " ++ e.name ++ ": " ++ e.description))

/-- Source: getTargetProperties (lines 250-264); the thrown Error is modelled
as the error branch of Except carrying the message. -/
def getTargetProperties (target : String) : Except String TP :=
  match findTP TARGETS target.data with
  | some r => Except.ok r
  | none => Except.error (unknownTargetMessage target)

/-- The key Set built at lines 267-272: union of the keys of all inputs in
first-occurrence order. -/
def keysUnion (tps : List TP) : List String :=
  tps.foldl (fun acc tp => tp.foldl (fun a kv => if kv.1 ∈ a then a else a ++ [kv.1]) acc) []

/-- JavaScript property read tp[key]: undefined both for an absent key and
for a key explicitly set to undefined. -/
def jsGet (tp : TP) (key : String) : Option Bool :=
  match tp.lookup key with
  | none => none
  | some v => v

/-- The inner loop at lines 275-292.  The branch of the source that would set
merged to undefined is guarded by value === undefined AND value, which no
value satisfies, so it is omitted as dead code. -/
def mergeLoop (any : Bool) (key : String) : List TP → Bool → Bool
  | [], merged => merged
  | tp :: rest, merged =>
    let value := jsGet tp key
    if any then
      if value = some true then true
      else mergeLoop any key rest merged
    else
      if value = some false then false
      else mergeLoop any key rest merged

/-- Source: mergeTargetProperties (lines 266-296). -/
def mergeTargetProperties (tps : List TP) (any : Bool := false) : TP :=
  (keysUnion tps).map (fun key => (key, some (mergeLoop any key tps (!any))))

/-- The map call at line 303: JavaScript Array.map evaluates left to right
and the first thrown error aborts the whole call. -/
def resolveAll : List String → Except String (List TP)
  | [] => Except.ok []
  | t :: rest =>
    match getTargetProperties t with
    | Except.error e => Except.error e
    | Except.ok p =>
      match resolveAll rest with
      | Except.error e => Except.error e
      | Except.ok ps => Except.ok (p :: ps)

/-- Source: getTargetsProperties (lines 302-304). -/
def getTargetsProperties (targets : List String) : Except String TP :=
  match resolveAll targets with
  | Except.error e => Except.error e
  | Except.ok tps => Except.ok (mergeTargetProperties tps)

/-- The platform and host API flag names of the data model (spec section 3). -/
def platformAndApiFlags : List String :=
  [ "web", "node", "nwjs", "electronMain", "electronPreload",
    "require", "document", "importScripts", "importScriptsInWorker", "fetchWasm", "global" ]

/-- The language syntax flag names of the data model (spec section 3); the
source spells the bigint flag bigInitLiteral. -/
def syntaxFlags : List String :=
  [ "globalThis", "bigInitLiteral", "const", "arrowFunctions", "forOf",
    "destructuring", "import", "module" ]

theorem lookup_map_keys (l : List String) (f : String → Option Bool) (key : String) :
    (l.map (fun k => (k, f k))).lookup key = if key ∈ l then some (f key) else none := by
  induction l with
  | nil => simp
  | cons k rest ih =>
    by_cases h : key = k
    · subst h
      simp [List.lookup]
    · have hb : (key == k) = false := by simp [h]
      simp [List.lookup, hb, ih, List.mem_cons, h]

theorem mergeLoop_conj_true_iff (key : String) (tps : List TP) :
    mergeLoop false key tps true = true ↔ ∀ tp ∈ tps, jsGet tp key ≠ some false := by
  induction tps with
  | nil => simp [mergeLoop]
  | cons tp rest ih =>
    by_cases h : jsGet tp key = some false
    · simp [mergeLoop, h]
    · simp [mergeLoop, h, ih]

theorem mergeLoop_disj_true_iff (key : String) (tps : List TP) :
    mergeLoop true key tps false = true ↔ ∃ tp ∈ tps, jsGet tp key = some true := by
  induction tps with
  | nil => simp [mergeLoop]
  | cons tp rest ih =>
    by_cases h : jsGet tp key = some true
    · simp [mergeLoop, h]
    · simp [mergeLoop, h, ih]

theorem mem_insertKeys (tp : TP) (acc : List String) (key : String) :
    key ∈ tp.foldl (fun a kv => if kv.1 ∈ a then a else a ++ [kv.1]) acc ↔
      key ∈ acc ∨ key ∈ tp.map Prod.fst := by
  induction tp generalizing acc with
  | nil => simp
  | cons kv rest ih =>
    simp only [List.foldl_cons, ih, List.map_cons, List.mem_cons]
    by_cases h : kv.1 ∈ acc
    · rw [if_pos h]
      constructor
      · rintro (ha | hr)
        · exact Or.inl ha
        · exact Or.inr (Or.inr hr)
      · rintro (ha | rfl | hr)
        · exact Or.inl ha
        · exact Or.inl h
        · exact Or.inr hr
    · rw [if_neg h]
      simp only [List.mem_append, List.mem_singleton]
      tauto

theorem mem_keysUnion (tps : List TP) (key : String) :
    key ∈ keysUnion tps ↔ ∃ tp ∈ tps, key ∈ tp.map Prod.fst := by
  have main : ∀ (l : List TP) (acc : List String),
      key ∈ l.foldl (fun acc tp => tp.foldl (fun a kv => if kv.1 ∈ a then a else a ++ [kv.1]) acc) acc
        ↔ key ∈ acc ∨ ∃ tp ∈ l, key ∈ tp.map Prod.fst := by
    intro l
    induction l with
    | nil => simp
    | cons tp rest ih =>
      intro acc
      simp only [List.foldl_cons, ih, mem_insertKeys, List.mem_cons]
      constructor
      · rintro ((ha | ht) | ⟨x, hx, hk⟩)
        · exact Or.inl ha
        · exact Or.inr ⟨tp, Or.inl rfl, ht⟩
        · exact Or.inr ⟨x, Or.inr hx, hk⟩
      · rintro (ha | ⟨x, (rfl | hx), hk⟩)
        · exact Or.inl (Or.inl ha)
        · exact Or.inl (Or.inr hk)
        · exact Or.inr ⟨x, hx, hk⟩
  simpa using main tps []

theorem lookup_some_mem {tp : TP} {key : String} {v : Option Bool}
    (h : tp.lookup key = some v) : key ∈ tp.map Prod.fst := by
  induction tp with
  | nil => cases h
  | cons kv rest ih =>
    obtain ⟨k, b⟩ := kv
    by_cases hk : key = k
    · simp [hk]
    · have hb : (key == k) = false := by simp [hk]
      simp only [List.lookup, hb] at h
      simp only [List.map_cons, List.mem_cons]
      exact Or.inr (ih h)

theorem jsGet_some_mem (tp : TP) (key : String) (b : Bool) (h : jsGet tp key = some b) :
    key ∈ tp.map Prod.fst := by
  unfold jsGet at h
  cases hl : tp.lookup key with
  | none => rw [hl] at h; cases h
  | some v => exact lookup_some_mem hl

/-- C2: conjunctive merge.  For every flag name appearing in at least one
input descriptor the merged value is false when some input explicitly holds
the value false and true otherwise; unknown or absent occurrences do not
prevent a true result, and a flag appearing in no input is absent from the
output. -/
theorem conjunctive_merge_correct (tps : List TP) (key : String) :
    ((∃ tp ∈ tps, jsGet tp key = some false) →
       (mergeTargetProperties tps).lookup key = some (some false))
    ∧ ((key ∈ keysUnion tps ∧ ∀ tp ∈ tps, jsGet tp key ≠ some false) →
       (mergeTargetProperties tps).lookup key = some (some true))
    ∧ (key ∉ keysUnion tps → (mergeTargetProperties tps).lookup key = none)
    ∧ (key ∈ keysUnion tps ↔ ∃ tp ∈ tps, key ∈ tp.map Prod.fst) := by
  refine ⟨?_, ?_, ?_, mem_keysUnion tps key⟩
  · rintro ⟨tp, htp, hget⟩
    have hk : key ∈ keysUnion tps :=
      (mem_keysUnion tps key).mpr ⟨tp, htp, jsGet_some_mem tp key false hget⟩
    have hml : mergeLoop false key tps true = false := by
      cases hml : mergeLoop false key tps true
      · rfl
      · exact absurd hget ((mergeLoop_conj_true_iff key tps).mp hml tp htp)
    unfold mergeTargetProperties
    rw [lookup_map_keys, if_pos hk]
    simp [hml]
  · rintro ⟨hk, hall⟩
    have hml : mergeLoop false key tps true = true :=
      (mergeLoop_conj_true_iff key tps).mpr hall
    unfold mergeTargetProperties
    rw [lookup_map_keys, if_pos hk]
    simp [hml]
  · intro hk
    unfold mergeTargetProperties
    rw [lookup_map_keys, if_neg hk]

theorem conjunctive_merge_correct_witness :
    (∃ tp ∈ [[(("a" : String), some true)], [(("a" : String), some false)]],
       jsGet tp "a" = some false)
    ∧ (mergeTargetProperties [[(("a" : String), some true)], [(("a" : String), some false)]]).lookup "a"
      = some (some false) :=
  ⟨by decide, (conjunctive_merge_correct [[("a", some true)], [("a", some false)]] "a").1 (by decide)⟩

/-- C6: disjunctive merge.  For every flag name appearing in at least one
input descriptor the merged value is true when some input explicitly holds
the value true and false (never unknown) otherwise; unknown, absent and
explicitly false occurrences elsewhere do not prevent a single true from
winning. -/
theorem disjunctive_merge_correct (tps : List TP) (key : String) :
    ((∃ tp ∈ tps, jsGet tp key = some true) →
       (mergeTargetProperties tps true).lookup key = some (some true))
    ∧ ((key ∈ keysUnion tps ∧ ∀ tp ∈ tps, jsGet tp key ≠ some true) →
       (mergeTargetProperties tps true).lookup key = some (some false))
    ∧ (key ∉ keysUnion tps → (mergeTargetProperties tps true).lookup key = none)
    ∧ (key ∈ keysUnion tps ↔ ∃ tp ∈ tps, key ∈ tp.map Prod.fst) := by
  refine ⟨?_, ?_, ?_, mem_keysUnion tps key⟩
  · rintro ⟨tp, htp, hget⟩
    have hk : key ∈ keysUnion tps :=
      (mem_keysUnion tps key).mpr ⟨tp, htp, jsGet_some_mem tp key true hget⟩
    have hml : mergeLoop true key tps false = true :=
      (mergeLoop_disj_true_iff key tps).mpr ⟨tp, htp, hget⟩
    unfold mergeTargetProperties
    rw [lookup_map_keys, if_pos hk]
    simp [hml]
  · rintro ⟨hk, hall⟩
    have hml : mergeLoop true key tps false = false := by
      cases hml : mergeLoop true key tps false
      · rfl
      · obtain ⟨tp, htp, hget⟩ := (mergeLoop_disj_true_iff key tps).mp hml
        exact absurd hget (hall tp htp)
    unfold mergeTargetProperties
    rw [lookup_map_keys, if_pos hk]
    simp [hml]
  · intro hk
    unfold mergeTargetProperties
    rw [lookup_map_keys, if_neg hk]

theorem disjunctive_merge_correct_witness :
    (∃ tp ∈ [[(("a" : String), some false)], [(("a" : String), some true)]],
       jsGet tp "a" = some true)
    ∧ (mergeTargetProperties [[(("a" : String), some false)], [(("a" : String), some true)]] true).lookup "a"
      = some (some true) :=
  ⟨by decide, (disjunctive_merge_correct [[("a", some false)], [("a", some true)]] "a").1 (by decide)⟩

theorem takeWhile_no_dot (l : List Char) (h : l.all Char.isDigit = true) :
    l.takeWhile (fun c => c != '.') = l ∧ l.dropWhile (fun c => c != '.') = [] := by
  induction l with
  | nil => simp
  | cons c cs ih =>
    simp only [List.all_cons, Bool.and_eq_true] at h
    have hc : (c != '.') = true := by
      have hne : c ≠ '.' := by
        intro hcc
        rw [hcc] at h
        exact absurd h.1 (by decide)
      simpa using hne
    obtain ⟨ht, hd⟩ := ih h.2
    simp [List.takeWhile_cons, List.dropWhile_cons, hc, ht, hd]

theorem jsNum_digits (l : List Char) (h : l.all Char.isDigit = true) :
    jsNum l = ⟨digitsToNat l, 0⟩ := by
  obtain ⟨ht, hd⟩ := takeWhile_no_dot l h
  simp [jsNum, ht, hd]

/-- C5: the Version Gate contract.  With no requested major the comparator
yields unknown for every baseline; with a requested major it yields true
exactly when the requested version is at least the baseline in the
major/minor lexicographic order, a missing requested minor defaulting to
zero (the baseline minor argument of versionDependent itself defaults to
zero). -/
theorem versionDependent_contract :
    (∀ (minor : Option (List Char)) (bMaj bMin : Nat),
       versionDependent none minor bMaj bMin = none)
    ∧ (∀ (major : List Char) (minor : Option (List Char)) (bMaj bMin : Nat),
       major ≠ [] → major.all Char.isDigit = true →
       (∀ t, minor = some t → t.all Char.isDigit = true) →
       versionDependent (some major) minor bMaj bMin
         = some (decide (digitsToNat major > bMaj
             ∨ (digitsToNat major = bMaj ∧ minor.elim 0 digitsToNat ≥ bMin)))) := by
  constructor
  · intro minor bMaj bMin
    rfl
  · intro major minor bMaj bMin hne hdig hmin
    cases major with
    | nil => exact absurd rfl hne
    | cons c cs =>
      have hM := jsNum_digits (c :: cs) hdig
      cases minor with
      | none =>
        unfold versionDependent
        dsimp only
        rw [hM]
        congr 1
        simp [Dec.blt, Dec.beqv, Dec.ble, Dec.ofNat, ge_iff_le, gt_iff_lt]
      | some t =>
        cases t with
        | nil =>
          unfold versionDependent
          dsimp only
          rw [hM]
          congr 1
          simp [Dec.blt, Dec.beqv, Dec.ble, Dec.ofNat, digitsToNat, ge_iff_le, gt_iff_lt]
        | cons d ds =>
          have hN := jsNum_digits (d :: ds) (hmin _ rfl)
          unfold versionDependent
          dsimp only
          rw [hM, hN]
          congr 1
          simp [Dec.blt, Dec.beqv, Dec.ble, Dec.ofNat, ge_iff_le, gt_iff_lt]

theorem versionDependent_contract_witness :
    (['1', '4'] : List Char) ≠ [] ∧ versionDependent (some ['1', '4']) (some ['5']) 12 0 = some true := by
  constructor
  · decide
  · rw [versionDependent_contract.2 ['1', '4'] (some ['5']) 12 0 (by decide) (by decide)
      (fun t ht => by cases ht; decide)]
    decide

theorem resolveAll_error_of_first (ts1 : List String) (t : String) (ts2 : List String) (e : String)
    (h1 : ∀ u ∈ ts1, ∃ p, getTargetProperties u = Except.ok p)
    (h2 : getTargetProperties t = Except.error e) :
    resolveAll (ts1 ++ t :: ts2) = Except.error e := by
  induction ts1 with
  | nil => simp [resolveAll, h2]
  | cons u rest ih =>
    obtain ⟨p, hp⟩ := h1 u (List.mem_cons_self u rest)
    have hr := ih (fun v hv => h1 v (List.mem_cons_of_mem _ hv))
    simp [resolveAll, hp, hr]

theorem resolveAll_get (ts : List String) (tps : List TP) (h : resolveAll ts = Except.ok tps) :
    tps.length = ts.length ∧
    ∀ i (hi : i < ts.length) (hj : i < tps.length),
      getTargetProperties (ts.get ⟨i, hi⟩) = Except.ok (tps.get ⟨i, hj⟩) := by
  induction ts generalizing tps with
  | nil =>
    unfold resolveAll at h
    cases h
    exact ⟨rfl, fun i hi _ => absurd hi (Nat.not_lt_zero i)⟩
  | cons t rest ih =>
    unfold resolveAll at h
    cases hp : getTargetProperties t with
    | error e => rw [hp] at h; cases h
    | ok p =>
      rw [hp] at h
      cases hr : resolveAll rest with
      | error e => rw [hr] at h; cases h
      | ok ps =>
        rw [hr] at h
        cases h
        obtain ⟨hlen, hget⟩ := ih ps hr
        refine ⟨by simp [hlen], ?_⟩
        intro i hi hj
        cases i with
        | zero => simpa using hp
        | succ n => simpa using hget n (by simpa using hi) (by simpa using hj)

/-- C7: resolveTargets resolves every element through the single-target
resolver and merges the element results with the conjunctive policy; when
some element is unrecognized the whole call returns the error of the first
unrecognized element and no merge is performed. -/
theorem getTargetsProperties_contract (ts : List String) :
    (∀ tps, resolveAll ts = Except.ok tps →
       getTargetsProperties ts = Except.ok (mergeTargetProperties tps false)
       ∧ tps.length = ts.length
       ∧ ∀ i (hi : i < ts.length) (hj : i < tps.length),
           getTargetProperties (ts.get ⟨i, hi⟩) = Except.ok (tps.get ⟨i, hj⟩))
    ∧ (∀ (ts1 : List String) (t : String) (ts2 : List String) (e : String),
       ts = ts1 ++ t :: ts2 →
       (∀ u ∈ ts1, ∃ p, getTargetProperties u = Except.ok p) →
       getTargetProperties t = Except.error e →
       getTargetsProperties ts = Except.error e) := by
  constructor
  · intro tps h
    obtain ⟨hlen, hget⟩ := resolveAll_get ts tps h
    refine ⟨?_, hlen, hget⟩
    unfold getTargetsProperties
    rw [h]
  · rintro ts1 t ts2 e rfl h1 h2
    unfold getTargetsProperties
    rw [resolveAll_error_of_first ts1 t ts2 e h1 h2]

theorem getTargetsProperties_contract_witness :
    getTargetsProperties ["web", "zzz"] = Except.error (unknownTargetMessage "zzz") := by
  refine (getTargetsProperties_contract ["web", "zzz"]).2 ["web"] "zzz" [] _ rfl ?_ ?_
  · intro u hu
    have hu' : u = "web" := by simpa using hu
    subst hu'
    exact ⟨webProps, rfl⟩
  · rfl

theorem findTP_eq_none_iff (entries : List TargetEntry) (l : List Char) :
    findTP entries l = none ↔ ∀ e ∈ entries, e.run l = none := by
  induction entries with
  | nil => simp [findTP]
  | cons e rest ih =>
    cases he : e.run l with
    | some r => simp [findTP, he]
    | none => simp [findTP, he, ih]

/-- C8: resolution has a single failure mode.  It fails exactly when no
registered pattern matches the input, the error carries the message built
from the offending string, and that message enumerates the display name and
description of every registered pattern. -/
theorem unknown_target_error_contract (t : String) :
    ((∀ e ∈ TARGETS, e.run t.data = none) →
       getTargetProperties t = Except.error (unknownTargetMessage t))
    ∧ (∀ m, getTargetProperties t = Except.error m →
       m = unknownTargetMessage t ∧ ∀ e ∈ TARGETS, e.run t.data = none)
    ∧ unknownTargetMessage t
        = "Unknown target '" ++ t ++ "'. The following targets are supported:\n" ++
          String.intercalate "\n" (TARGETS.map (fun e => "* " ++ e.name ++ ": " ++ e.description)) := by
  refine ⟨?_, ?_, rfl⟩
  · intro h
    unfold getTargetProperties
    rw [(findTP_eq_none_iff TARGETS t.data).mpr h]
  · intro m hm
    unfold getTargetProperties at hm
    cases hf : findTP TARGETS t.data with
    | some r => rw [hf] at hm; cases hm
    | none =>
      rw [hf] at hm
      cases hm
      exact ⟨rfl, (findTP_eq_none_iff TARGETS t.data).mp hf⟩

theorem unknown_target_error_contract_witness :
    (∀ e ∈ TARGETS, e.run ("bogus-target").data = none)
    ∧ getTargetProperties "bogus-target" = Except.error (unknownTargetMessage "bogus-target") :=
  ⟨by decide, (unknown_target_error_contract "bogus-target").1 (by decide)⟩

theorem runNode_es_none (d : List Char) : runNode ('e' :: 's' :: d) = none := rfl

theorem runWeb_es_none (d : List Char) : runWeb ('e' :: 's' :: d) = none := rfl

theorem runWebworker_es_none (d : List Char) : runWebworker ('e' :: 's' :: d) = none := rfl

theorem runElectronMain_es_none (d : List Char) : runElectronMain ('e' :: 's' :: d) = none := rfl

theorem runElectronPreload_es_none (d : List Char) : runElectronPreload ('e' :: 's' :: d) = none := rfl

theorem runNwjs_es_none (d : List Char) : runNwjs ('e' :: 's' :: d) = none := rfl

theorem matchEs_es (d : List Char) (hne : d ≠ []) (hd : d.all Char.isDigit = true) :
    matchEs ('e' :: 's' :: d) = some d := by
  unfold matchEs
  rw [show chomp esL ('e' :: 's' :: d) = some d from rfl]
  dsimp only
  exact if_pos ⟨hne, hd⟩

theorem runEs_es (d : List Char) (hne : d ≠ []) (hd : d.all Char.isDigit = true) :
    runEs ('e' :: 's' :: d) = some (esHandler d) := by
  unfold runEs
  rw [matchEs_es d hne hd]

theorem findTP_es (d : List Char) (hne : d ≠ []) (hd : d.all Char.isDigit = true) :
    findTP TARGETS ('e' :: 's' :: d) = some (esHandler d) := by
  simp only [TARGETS, findTP, runNode_es_none, runWeb_es_none, runWebworker_es_none,
    runElectronMain_es_none, runElectronPreload_es_none, runNwjs_es_none, runEs_es d hne hd]

/-- C9: for every target of the shape es followed by digits, resolution
succeeds with the es handler result, every platform and API flag is absent
from the descriptor, and every syntax flag is exactly the boolean saying
that the normalized edition (the numeric value minus 2009 when greater than
1000) is at least 6. -/
theorem es_target_contract (d : List Char) (hne : d ≠ []) (hd : d.all Char.isDigit = true) :
    getTargetProperties (String.mk ('e' :: 's' :: d)) = Except.ok (esHandler d)
    ∧ (∀ key ∈ platformAndApiFlags, (esHandler d).lookup key = none)
    ∧ (∀ key ∈ syntaxFlags, jsGet (esHandler d) key
        = some (decide ((if (digitsToNat d : Int) > 1000
            then (digitsToNat d : Int) - 2009 else (digitsToNat d : Int)) ≥ 6))) := by
  refine ⟨?_, ?_, ?_⟩
  · unfold getTargetProperties
    rw [show (String.mk ('e' :: 's' :: d)).data = 'e' :: 's' :: d from rfl, findTP_es d hne hd]
  · intro key hk
    fin_cases hk <;> rfl
  · intro key hk
    fin_cases hk <;> rfl

theorem es_target_contract_witness :
    getTargetProperties "es2020" = Except.ok (esHandler ['2', '0', '2', '0'])
    ∧ jsGet (esHandler ['2', '0', '2', '0']) "import" = some true := by
  constructor
  · exact (es_target_contract ['2', '0', '2', '0'] (by decide) (by decide)).1
  · decide

theorem parseVersionBefore_ne_nil (tail l maj : List Char) (mi : Option (List Char))
    (h : parseVersionBefore tail l = some (maj, mi)) : maj ≠ [] := by
  unfold parseVersionBefore at h
  dsimp only at h
  split at h
  · cases h
  · rename_i hds
    split at h
    · split at h
      · injection h with h'
        injection h' with h1 h2
        subst h1
        simp
      · split at h
        · injection h with h'
          injection h' with h1 h2
          subst h1
          exact hds
        · cases h
    · split at h
      · injection h with h'
        injection h' with h1 h2
        subst h1
        exact hds
      · cases h

theorem matchNode_ne_nil {l : List Char} {a : Option (List Char)} {maj : List Char}
    {mi : Option (List Char)} (h : matchNode l = some (a, maj, mi)) : maj ≠ [] := by
  unfold matchNode at h
  cases hc : chomp asyncNodeL l with
  | none => rw [hc] at h; cases h
  | some rest =>
    rw [hc] at h
    dsimp only at h
    cases hp : parseVersionBefore [] rest with
    | none => rw [hp] at h; cases h
    | some p =>
      obtain ⟨maj', mi'⟩ := p
      rw [hp] at h
      simp only [Option.some.injEq, Prod.mk.injEq] at h
      obtain ⟨ha, hmaj, hmi⟩ := h
      subst hmaj
      exact parseVersionBefore_ne_nil [] rest _ _ hp

theorem matchElectronMain_ne_nil {l : List Char} {maj : List Char} {mi : Option (List Char)}
    (h : matchElectronMain l = some (maj, mi)) : maj ≠ [] := by
  unfold matchElectronMain at h
  cases hc : chomp electronL l with
  | none => rw [hc] at h; cases h
  | some rest =>
    rw [hc] at h
    exact parseVersionBefore_ne_nil mainTailL rest maj mi h

theorem matchElectronPreload_ne_nil {l : List Char} {maj : List Char} {mi : Option (List Char)}
    (h : matchElectronPreload l = some (maj, mi)) : maj ≠ [] := by
  unfold matchElectronPreload at h
  cases hc : chomp electronL l with
  | none => rw [hc] at h; cases h
  | some rest =>
    rw [hc] at h
    dsimp only at h
    cases hp : parseVersionBefore preloadTailL rest with
    | some p =>
      rw [hp] at h
      dsimp only at h
      simp only [Option.some.injEq] at h
      rw [h] at hp
      exact parseVersionBefore_ne_nil preloadTailL rest maj mi hp
    | none =>
      rw [hp] at h
      exact parseVersionBefore_ne_nil rendererTailL rest maj mi h

theorem matchNwjs_ne_nil {l : List Char} {maj : List Char} {mi : Option (List Char)}
    (h : matchNwjs l = some (maj, mi)) : maj ≠ [] := by
  unfold matchNwjs at h
  cases hc : chomp nwjsL l with
  | some rest =>
    rw [hc] at h
    exact parseVersionBefore_ne_nil [] rest maj mi h
  | none =>
    rw [hc] at h
    cases hc2 : chomp nodeWebkitL l with
    | none => rw [hc2] at h; cases h
    | some rest =>
      rw [hc2] at h
      exact parseVersionBefore_ne_nil [] rest maj mi h

theorem versionDependent_isSome (major : List Char) (h : major ≠ []) (minor : Option (List Char))
    (vMajor vMinor : Nat) : (versionDependent (some major) minor vMajor vMinor).isSome = true := by
  cases major with
  | nil => exact absurd rfl h
  | cons c cs => rfl

theorem nodeHandler_all_some (a : Option (List Char)) (maj : List Char) (mi : Option (List Char))
    (h : maj ≠ []) : (nodeHandler a (some maj) mi).all (fun kv => kv.2.isSome) = true := by
  have hv : ∀ vMajor vMinor, (versionDependent (some maj) mi vMajor vMinor).isSome = true :=
    fun vMajor vMinor => versionDependent_isSome maj h mi vMajor vMinor
  simp [nodeHandler, hv]

theorem electronMainHandler_all_some (maj : List Char) (mi : Option (List Char))
    (h : maj ≠ []) : (electronMainHandler (some maj) mi).all (fun kv => kv.2.isSome) = true := by
  have hv : ∀ vMajor vMinor, (versionDependent (some maj) mi vMajor vMinor).isSome = true :=
    fun vMajor vMinor => versionDependent_isSome maj h mi vMajor vMinor
  simp [electronMainHandler, hv]

theorem electronPreloadHandler_all_some (maj : List Char) (mi : Option (List Char))
    (h : maj ≠ []) : (electronPreloadHandler (some maj) mi).all (fun kv => kv.2.isSome) = true := by
  have hv : ∀ vMajor vMinor, (versionDependent (some maj) mi vMajor vMinor).isSome = true :=
    fun vMajor vMinor => versionDependent_isSome maj h mi vMajor vMinor
  simp [electronPreloadHandler, hv]

theorem nwjsHandler_all_some (maj : List Char) (mi : Option (List Char))
    (h : maj ≠ []) : (nwjsHandler (some maj) mi).all (fun kv => kv.2.isSome) = true := by
  have hv : ∀ vMajor vMinor, (versionDependent (some maj) mi vMajor vMinor).isSome = true :=
    fun vMajor vMinor => versionDependent_isSome maj h mi vMajor vMinor
  simp [nwjsHandler, hv]

theorem esHandler_all_some (version : List Char) :
    (esHandler version).all (fun kv => kv.2.isSome) = true := by
  simp [esHandler]

theorem findTP_mem (entries : List TargetEntry) (l : List Char) (tp : TP)
    (h : findTP entries l = some tp) : ∃ e ∈ entries, e.run l = some tp := by
  induction entries with
  | nil => cases h
  | cons e rest ih =>
    unfold findTP at h
    cases he : e.run l with
    | some r =>
      rw [he] at h
      refine ⟨e, List.mem_cons_self e rest, ?_⟩
      rw [he]
      exact h
    | none =>
      rw [he] at h
      obtain ⟨x, hx, hr⟩ := ih h
      exact ⟨x, List.mem_cons_of_mem e hx, hr⟩

/-- C10: whenever resolution succeeds, every key present in the returned
descriptor carries an explicit boolean; the unknown branch of the Version
Gate is unreachable because every matcher that uses versions captures
non-empty version digits, so unknown only ever shows up as an absent key. -/
theorem resolved_values_are_booleans (t : String) (tp : TP)
    (h : getTargetProperties t = Except.ok tp) :
    tp.all (fun kv => kv.2.isSome) = true := by
  have hf : findTP TARGETS t.data = some tp := by
    unfold getTargetProperties at h
    cases hc : findTP TARGETS t.data with
    | none => rw [hc] at h; cases h
    | some r =>
      rw [hc] at h
      simp only [Except.ok.injEq] at h
      exact congrArg some h
  obtain ⟨e, he, hrun⟩ := findTP_mem TARGETS t.data tp hf
  simp only [TARGETS, List.mem_cons, List.not_mem_nil, or_false] at he
  rcases he with rfl | rfl | rfl | rfl | rfl | rfl | rfl
  · replace hrun : runNode t.data = some tp := hrun
    unfold runNode at hrun
    cases hm : matchNode t.data with
    | none => rw [hm] at hrun; cases hrun
    | some x =>
      obtain ⟨a, maj, mi⟩ := x
      rw [hm] at hrun
      simp only [Option.some.injEq] at hrun
      rw [← hrun]
      exact nodeHandler_all_some a maj mi (matchNode_ne_nil hm)
  · replace hrun : runWeb t.data = some tp := hrun
    unfold runWeb at hrun
    cases hc : chomp webL t.data with
    | none => rw [hc] at hrun; cases hrun
    | some rest =>
      rw [hc] at hrun
      dsimp only at hrun
      split at hrun
      · simp only [Option.some.injEq] at hrun
        rw [← hrun]
        decide
      · cases hrun
  · replace hrun : runWebworker t.data = some tp := hrun
    unfold runWebworker at hrun
    cases hc : chomp webworkerL t.data with
    | none => rw [hc] at hrun; cases hrun
    | some rest =>
      rw [hc] at hrun
      dsimp only at hrun
      split at hrun
      · simp only [Option.some.injEq] at hrun
        rw [← hrun]
        decide
      · cases hrun
  · replace hrun : runElectronMain t.data = some tp := hrun
    unfold runElectronMain at hrun
    cases hm : matchElectronMain t.data with
    | none => rw [hm] at hrun; cases hrun
    | some x =>
      obtain ⟨maj, mi⟩ := x
      rw [hm] at hrun
      simp only [Option.some.injEq] at hrun
      rw [← hrun]
      exact electronMainHandler_all_some maj mi (matchElectronMain_ne_nil hm)
  · replace hrun : runElectronPreload t.data = some tp := hrun
    unfold runElectronPreload at hrun
    cases hm : matchElectronPreload t.data with
    | none => rw [hm] at hrun; cases hrun
    | some x =>
      obtain ⟨maj, mi⟩ := x
      rw [hm] at hrun
      simp only [Option.some.injEq] at hrun
      rw [← hrun]
      exact electronPreloadHandler_all_some maj mi (matchElectronPreload_ne_nil hm)
  · replace hrun : runNwjs t.data = some tp := hrun
    unfold runNwjs at hrun
    cases hm : matchNwjs t.data with
    | none => rw [hm] at hrun; cases hrun
    | some x =>
      obtain ⟨maj, mi⟩ := x
      rw [hm] at hrun
      simp only [Option.some.injEq] at hrun
      rw [← hrun]
      exact nwjsHandler_all_some maj mi (matchNwjs_ne_nil hm)
  · replace hrun : runEs t.data = some tp := hrun
    unfold runEs at hrun
    cases hm : matchEs t.data with
    | none => rw [hm] at hrun; cases hrun
    | some version =>
      rw [hm] at hrun
      simp only [Option.some.injEq] at hrun
      rw [← hrun]
      exact esHandler_all_some version

theorem resolved_values_are_booleans_witness :
    webProps.all (fun kv => kv.2.isSome) = true :=
  resolved_values_are_booleans "web" webProps rfl

/-- C1: the claim says resolveTarget applied to node14.5 succeeds with a
node descriptor.  In the source the regex of the node family makes the
async- group mandatory, so node14.5 matches no registered pattern and
resolution throws the unknown-target error, although the description text of
the very same registry entry lists node14.5 as an example. -/
theorem node14_5_is_rejected :
    getTargetProperties "node14.5" = Except.error (unknownTargetMessage "node14.5") := by
  rfl

/-- C3: the claim says the node matcher treats both the async- prefix and
the version as optional, so that the bare target node resolves with all
syntax flags unknown.  In the source both the async- group and the version
digits are mandatory, so node and async-node are rejected with the
unknown-target error, even though the displayed pattern name marks both
parts as optional and the no-version branch of versionDependent is
unreachable. -/
theorem bare_node_is_rejected :
    getTargetProperties "node" = Except.error (unknownTargetMessage "node") ∧
    getTargetProperties "async-node" = Except.error (unknownTargetMessage "async-node") := by
  exact ⟨rfl, rfl⟩

/-- C4: evaluation of the node family at the failing input async-node12.5.
The require, bigInitLiteral, import and module values at async-node10 agree
with the claim, but at async-node12.5 the captured major is the whole string
12.5, which is coerced to the number 12.5; since 12.5 is greater than 12 the
gate v(12, 17) yields true, so import and module come out true although the
introduction threshold of the table is 12.17. -/
theorem async_node12_5_import_true :
    (getTargetProperties "async-node10").map
      (fun tp => (jsGet tp "require", jsGet tp "bigInitLiteral", jsGet tp "import", jsGet tp "module"))
      = Except.ok (some false, some false, some false, some false) ∧
    (getTargetProperties "async-node12.5").map
      (fun tp => (jsGet tp "import", jsGet tp "module"))
      = Except.ok (some true, some true) := by
  exact ⟨by rfl, by rfl⟩

end WebpackTarget
